import Mathlib

/-!
# tx-fetcher: block-range scanner pipeline

A shallow embedding of `main.go` (the concurrent pipeline) and of the match
predicate of `old.go` (the sequential predecessor).

* `*big.Int` values are `Int` (arbitrary precision).
* `int64` arithmetic is `Int` arithmetic reduced by `wrap64` (two's complement).
* `common.Address` is a type parameter `A` and `Address.Hex` a parameter
  `hex : A → String` (both belong to go-ethereum, not to this repository).
* The node behind `ethClient.BlockByNumber` is a parameter `node`, and
  `types.Sender(signer, tx)` is read off the transaction as an optional address.
* `time.Unix(sec, 0).UTC().Format(time.RFC3339)` is a parameter
  `rfc3339 : Int → String` (Go standard library).
-/

namespace TxFetcher

/-! ## Range partitioning (`main`, lines 113-127) -/

/-- Two's-complement reduction of an integer to the `int64` range. -/
def wrap64 (x : Int) : Int :=
  (x + 2 ^ 63) % 2 ^ 64 - 2 ^ 63

/-- Line 113: `new(big.Int).Sub(endBlock, startBlock).Int64() / int64(numWorkers)`.
Go's `/` truncates toward zero. -/
def blockSize (startBlock endBlock numWorkers : Int) : Int :=
  wrap64 (Int.tdiv (wrap64 (endBlock - startBlock)) (wrap64 numWorkers))

/-- Line 120: `startBlock.Int64() + int64(i)*blockSize`. -/
def segmentStart (startBlock bs : Int) (i : Nat) : Int :=
  wrap64 (wrap64 startBlock + wrap64 (wrap64 (i : Int) * bs))

/-- Lines 121-124: `segmentStart.Int64() + blockSize - 1`, replaced by `endBlock`
for the last worker. -/
def segmentEnd (startBlock endBlock numWorkers bs : Int) (i : Nat) : Int :=
  if (i : Int) = numWorkers - 1 then endBlock
  else wrap64 (wrap64 (wrap64 (segmentStart startBlock bs i) + bs) - 1)

/-- The ranges handed to the scanners by the loop of lines 118-127, in the order
of the loop index. Line 113 divides by `numWorkers`, which panics when it is
zero (`none`); a negative `numWorkers` runs the loop zero times. -/
def partition (startBlock endBlock numWorkers : Int) : Option (List (Int × Int)) :=
  if wrap64 numWorkers = 0 then none
  else
    let bs := blockSize startBlock endBlock numWorkers
    some ((List.range numWorkers.toNat).map fun i =>
      (segmentStart startBlock bs i, segmentEnd startBlock endBlock numWorkers bs i))

/-- The inputs for which no `int64` operation of lines 113-124 overflows. -/
def NoOverflow (startBlock endBlock numWorkers : Int) : Prop :=
  -(2 ^ 63) < startBlock ∧ endBlock < 2 ^ 63 ∧ endBlock - startBlock < 2 ^ 63 ∧
    numWorkers < 2 ^ 63

/-- Block `b` lies in the inclusive range `r`; a range whose end is below its
start contains no block. -/
def InRange (r : Int × Int) (b : Int) : Prop :=
  r.1 ≤ b ∧ b ≤ r.2

/-! ## Block scanner (`fetchTransactions`, lines 31-66) -/

/-- Lines 23-29: the record a scanner sends to the writer. -/
structure TransactionData where
  Hash : String
  From : String
  To : String
  Value : String
  timestamp : Nat
deriving DecidableEq

/-- What `fetchTransactions` reads of a `*types.Transaction`:
`tx.Hash().Hex()`, the result of `types.Sender(signer, tx)` (`none` when it
returns an error), `tx.To()` (`none` for nil) and `tx.Value().String()`. -/
structure Transaction (A : Type) where
  hashHex : String
  sender : Option A
  To : Option A
  value : String
deriving DecidableEq

/-- What `fetchTransactions` reads of a `*types.Block`: `block.Transactions()`
and `block.Time()`. -/
structure Block (A : Type) where
  transactions : List (Transaction A)
  time : Nat
deriving DecidableEq

/-- The two `log.Printf` calls of `fetchTransactions` (lines 37 and 44). -/
inductive LogEntry
  | blockFailed (blockNumber : Int)
  | senderFailed
deriving DecidableEq

/-- The state of one scanner: the `startBlock` big integer it increments in
place, the arguments of its `BlockByNumber` calls so far, its log lines and the
records it has sent on `txDataChan`, each in order. -/
structure Scan where
  startBlock : Int
  fetched : List Int
  logs : List LogEntry
  sent : List TransactionData
deriving DecidableEq

/-- Lines 48-51: the `to` string, empty for a contract creation. -/
def toField {A : Type} (hex : A → String) (tx : Transaction A) : String :=
  match tx.To with
  | none => ""
  | some a => hex a

/-- Line 53 of main.go: `from == walletAddress || to == walletAddress.Hex()`. -/
def isMatch {A : Type} [DecidableEq A] (hex : A → String) (walletAddress sender : A)
    (toHex : String) : Bool :=
  decide (sender = walletAddress) || decide (toHex = hex walletAddress)

/-- Line 75 of old.go:
`(tx.To() != nil && *tx.To() == walletAddress) || from == walletAddress`. -/
def isMatchOld {A : Type} [DecidableEq A] (walletAddress : A) (tx : Transaction A)
    (sender : A) : Bool :=
  (match tx.To with
    | none => false
    | some a => decide (a = walletAddress)) || decide (sender = walletAddress)

/-- Lines 42-61: the body of the loop over the transactions of a block whose
time is `time`. A send on `txDataChan` is recorded in `sent`. -/
def scanTx {A : Type} [DecidableEq A] (hex : A → String) (walletAddress : A) (time : Nat)
    (st : Scan) (tx : Transaction A) : Scan :=
  match tx.sender with
  | none => { st with logs := st.logs ++ [LogEntry.senderFailed] }
  | some sender =>
    let toHex := toField hex tx
    if isMatch hex walletAddress sender toHex then
      { st with sent := st.sent ++ [⟨tx.hashHex, hex sender, toHex, tx.value, time⟩] }
    else st

/-- Lines 35-64: one iteration of the loop over the blocks. `node k b` is the
answer of the node to the `k`-th `BlockByNumber` call (counted from 0) of this
scanner when it asks for block `b`, `none` for an error. On an error the
iteration logs and `continue`s, which skips line 64. -/
def iteration {A : Type} [DecidableEq A] (node : Nat → Int → Option (Block A))
    (hex : A → String) (walletAddress : A) (st : Scan) : Scan :=
  let st1 : Scan := { st with fetched := st.fetched ++ [st.startBlock] }
  match node st.fetched.length st.startBlock with
  | none => { st1 with logs := st1.logs ++ [LogEntry.blockFailed st.startBlock] }
  | some block =>
    let st2 := block.transactions.foldl (scanTx hex walletAddress block.time) st1
    { st2 with startBlock := st2.startBlock + 1 }

/-- Lines 34-65: the loop `for startBlock.Cmp(endBlock) <= 0`, run for at most
`fuel` iterations; `none` when the loop is still running after them. -/
def fetchLoop {A : Type} [DecidableEq A] (node : Nat → Int → Option (Block A))
    (hex : A → String) (walletAddress : A) (endBlock : Int) : Nat → Scan → Option Scan
  | 0, st => if st.startBlock ≤ endBlock then none else some st
  | fuel + 1, st =>
    if st.startBlock ≤ endBlock then
      fetchLoop node hex walletAddress endBlock fuel (iteration node hex walletAddress st)
    else some st

/-- Lines 31-66: `fetchTransactions` on the range `[startBlock, endBlock]`. -/
def fetchTransactions {A : Type} [DecidableEq A] (node : Nat → Int → Option (Block A))
    (hex : A → String) (fuel : Nat) (startBlock endBlock : Int) (walletAddress : A) :
    Option Scan :=
  fetchLoop node hex walletAddress endBlock fuel ⟨startBlock, [], [], []⟩

/-- The record line 54 builds for a transaction recovered as sent by `sender`
in a block whose time is `time`. -/
def recordOf {A : Type} (hex : A → String) (time : Nat) (tx : Transaction A) (sender : A) :
    TransactionData :=
  ⟨tx.hashHex, hex sender, toField hex tx, tx.value, time⟩

/-- Specification of the inner loop: the record a transaction contributes, none
when its sender cannot be recovered or the test of line 53 fails. -/
def matchRecord {A : Type} [DecidableEq A] (hex : A → String) (walletAddress : A)
    (time : Nat) (tx : Transaction A) : Option TransactionData :=
  match tx.sender with
  | none => none
  | some sender =>
    if isMatch hex walletAddress sender (toField hex tx) then
      some (recordOf hex time tx sender)
    else none

/-- Specification of the scan of one block: the records of its matching
transactions, in transaction-list order. -/
def matching {A : Type} [DecidableEq A] (hex : A → String) (walletAddress : A)
    (block : Block A) : List TransactionData :=
  block.transactions.filterMap (matchRecord hex walletAddress block.time)

/-- The matching records of the answer to a `BlockByNumber` call, none for an
error. -/
def answerRecords {A : Type} [DecidableEq A] (hex : A → String) (walletAddress : A)
    (answer : Option (Block A)) : List TransactionData :=
  match answer with
  | none => []
  | some block => matching hex walletAddress block

/-- What a scanner run shows to the rest of the pipeline and to the node: the
final block number, the blocks fetched and the records sent (not the log). -/
def Scan.view (st : Scan) : Int × List Int × List TransactionData :=
  (st.startBlock, st.fetched, st.sent)

/-- The node `node` with the transaction at position `i` removed from the block
it returns to call `k` for block number `b`. -/
def removeTx {A : Type} (node : Nat → Int → Option (Block A)) (k : Nat) (b : Int) (i : Nat) :
    Nat → Int → Option (Block A) :=
  fun k' b' =>
    if k' = k ∧ b' = b then
      (node k' b').map fun block => { block with transactions := block.transactions.eraseIdx i }
    else node k' b'

/-! ## Writer (`writeCSV`, lines 68-92) -/

/-- Line 78: the header row. -/
def header : List String :=
  ["Transaction Hash", "From", "To", "Value", "Timestamp"]

/-- The row of line 87 for a record; line 86 converts the `uint64` timestamp with
`int64(...)` before formatting it. -/
def csvRow (rfc3339 : Int → String) (txData : TransactionData) : List String :=
  [txData.Hash, txData.From, txData.To, txData.Value, rfc3339 (wrap64 txData.timestamp)]

/-- Lines 83-87: the data case of the `select`, on the rows handed to
`csv.Writer.Write` so far. -/
def writeRecord (rfc3339 : Int → String) (rows : List (List String))
    (txData : TransactionData) : List (List String) :=
  if txData.Hash = "" then rows else rows ++ [csvRow rfc3339 txData]

/-- What one evaluation of the `select` of line 81 delivers to the writer. -/
inductive Selected
  | data (txData : TransactionData)
  | done
deriving DecidableEq

/-- Lines 80-91: the writer loop against the sequence of `select` outcomes,
returning the rows written and whether the loop has returned. -/
def writeLoop (rfc3339 : Int → String) :
    List Selected → List (List String) → List (List String) × Bool
  | [], rows => (rows, false)
  | Selected.data txData :: rest, rows => writeLoop rfc3339 rest (writeRecord rfc3339 rows txData)
  | Selected.done :: _, rows => (rows, true)

/-- Lines 78-91 of `writeCSV` (the file is created): the header, then the loop. -/
def writeCSV (rfc3339 : Int → String) (selected : List Selected) :
    List (List String) × Bool :=
  writeLoop rfc3339 selected [header]

/-! ## Shutdown protocol (`main`, lines 129-138, with `writeCSV`) -/

/-- Where `main` stands: blocked in `wg.Wait()` (131), before `close` (132),
blocked in `done <- true` (133), before the report (136-137), returned. -/
inductive MainPc
  | wait | close | stop | report | exited
deriving DecidableEq

/-- Where the writer goroutine stands: before the header (69-78), in the
`select` (81), before the deferred `writer.Flush()` (76), before the deferred
`file.Close()` (73), returned. -/
inductive WriterPc
  | start | select | flush | closeFile | returned
deriving DecidableEq

/-- The state of the pipeline after line 129: the `WaitGroup` counter, the
records buffered in `txDataChan` (oldest first), whether it is closed, the two
program counters and the rows handed to `csv.Writer.Write`. The stop signal is
pending exactly when `mainPc = MainPc.stop`. -/
structure Pipeline where
  running : Nat
  chan : List TransactionData
  closed : Bool
  mainPc : MainPc
  writerPc : WriterPc
  rows : List (List String)
deriving DecidableEq

/-- The atomic steps of the goroutines. `handoff` is the rendezvous on the
unbuffered `done` channel: the send of line 133 together with the `select`
taking the case of line 88. -/
inductive Action
  | send (txData : TransactionData)
  | scannerDone
  | mainWait
  | mainClose
  | handoff
  | mainReport
  | writerHeader
  | writerData
  | writerFlush
  | writerCloseFile
deriving DecidableEq

/-- Line 109: the capacity of `txDataChan`. -/
def chanCapacity : Nat := 1000

/-- The zero value a receive on a closed and drained channel yields. -/
def zeroValue : TransactionData := ⟨"", "", "", "", 0⟩

/-- One step of the pipeline, `none` when the action is not enabled. Once `main`
has returned the process is over and no goroutine steps. Whenever several
actions are enabled any of them may be taken; in particular, with a record
buffered and the stop signal pending both `writerData` and `handoff` are
enabled, as both cases of the `select` are ready. -/
def step (rfc3339 : Int → String) (a : Action) (s : Pipeline) : Option Pipeline :=
  if s.mainPc = MainPc.exited then none
  else
    match a with
    | Action.send txData =>
      if 0 < s.running ∧ s.closed = false ∧ s.chan.length < chanCapacity then
        some { s with chan := s.chan ++ [txData] }
      else none
    | Action.scannerDone =>
      if 0 < s.running then some { s with running := s.running - 1 } else none
    | Action.mainWait =>
      if s.mainPc = MainPc.wait ∧ s.running = 0 then some { s with mainPc := MainPc.close }
      else none
    | Action.mainClose =>
      if s.mainPc = MainPc.close then some { s with closed := true, mainPc := MainPc.stop }
      else none
    | Action.handoff =>
      if s.mainPc = MainPc.stop ∧ s.writerPc = WriterPc.select then
        some { s with mainPc := MainPc.report, writerPc := WriterPc.flush }
      else none
    | Action.mainReport =>
      if s.mainPc = MainPc.report then some { s with mainPc := MainPc.exited } else none
    | Action.writerHeader =>
      if s.writerPc = WriterPc.start then
        some { s with rows := s.rows ++ [header], writerPc := WriterPc.select }
      else none
    | Action.writerData =>
      if s.writerPc = WriterPc.select then
        match s.chan with
        | txData :: rest =>
          some { s with chan := rest, rows := writeRecord rfc3339 s.rows txData }
        | [] =>
          if s.closed then some { s with rows := writeRecord rfc3339 s.rows zeroValue }
          else none
      else none
    | Action.writerFlush =>
      if s.writerPc = WriterPc.flush then some { s with writerPc := WriterPc.closeFile }
      else none
    | Action.writerCloseFile =>
      if s.writerPc = WriterPc.closeFile then some { s with writerPc := WriterPc.returned }
      else none

/-- A schedule: the actions taken one after the other. -/
def run (rfc3339 : Int → String) : List Action → Pipeline → Option Pipeline
  | [], s => some s
  | a :: rest, s => (step rfc3339 a s).bind (run rfc3339 rest)

/-- The pipeline right after line 129, with `numWorkers` scanners started. -/
def initial (numWorkers : Nat) : Pipeline :=
  ⟨numWorkers, [], false, MainPc.wait, WriterPc.start, []⟩

/-- The records the scanners send in a schedule, in order. -/
def sentBy : List Action → List TransactionData
  | [] => []
  | Action.send txData :: rest => txData :: sentBy rest
  | _ :: rest => sentBy rest

/-- The stop case of the `select` has been taken whenever `main` is past line 133. -/
def StopTaken (s : Pipeline) : Prop :=
  (s.mainPc = MainPc.report ∨ s.mainPc = MainPc.exited) →
    (s.writerPc = WriterPc.flush ∨ s.writerPc = WriterPc.closeFile ∨
      s.writerPc = WriterPc.returned)

/-- The channel is open and `main` waits while a scanner runs; once `main` is past
`wg.Wait()` no scanner runs. -/
def CloseAfterScanners (s : Pipeline) : Prop :=
  (0 < s.running → s.mainPc = MainPc.wait) ∧ (s.mainPc = MainPc.wait → s.closed = false) ∧
    (s.mainPc = MainPc.close → s.closed = false)

/-- The rows of the records with a non-empty hash, in order. -/
def rowsOf (rfc3339 : Int → String) (l : List TransactionData) : List (List String) :=
  (l.filter (fun r => decide (r.Hash ≠ ""))).map (csvRow rfc3339)

/-- The header row, if the writer wrote it between the states `s` and `s'`. -/
def headerBetween (s s' : Pipeline) : List (List String) :=
  if s.writerPc = WriterPc.start ∧ s'.writerPc ≠ WriterPc.start then [header] else []

/-- What a schedule `acts` from `s` to `s'` did to the channel and the rows: the
records buffered at the start and those sent since are the records `recvd` the
writer received followed by those still buffered, and the rows written since are
the header (if it was due) and the rows of `recvd`, in order. -/
def Delivered (rfc3339 : Int → String) (acts : List Action) (s s' : Pipeline) : Prop :=
  ∃ recvd : List TransactionData,
    s.chan ++ sentBy acts = recvd ++ s'.chan ∧
    s'.rows = s.rows ++ headerBetween s s' ++ rowsOf rfc3339 recvd ∧
    (s.writerPc ≠ WriterPc.start → s'.writerPc ≠ WriterPc.start) ∧
    (s'.writerPc = WriterPc.start → recvd = [])

/-! ## Partition: arithmetic lemmas -/

theorem wrap64_eq {x : Int} (h1 : -(2 ^ 63) ≤ x) (h2 : x < 2 ^ 63) : wrap64 x = x := by
  unfold wrap64
  rw [Int.emod_eq_of_lt (by omega) (by omega)]
  omega

/-- Without overflow the block size is the integer quotient of the span. -/
theorem blockSize_eq {s e n : Int} (hse : s ≤ e) (hn : 1 ≤ n) (ho : NoOverflow s e n) :
    blockSize s e n = (e - s) / n := by
  obtain ⟨h1, h2, h3, h4⟩ := ho
  have hq0 : 0 ≤ (e - s) / n := Int.ediv_nonneg (by omega) (by omega)
  have hq1 : (e - s) / n ≤ e - s := Int.ediv_le_self _ (by omega)
  unfold blockSize
  rw [wrap64_eq (x := e - s) (by omega) h3, wrap64_eq (x := n) (by omega) h4,
    Int.tdiv_eq_ediv (by omega) (by omega), wrap64_eq (by omega) (by omega)]

theorem blockSize_nonneg {s e n : Int} (hse : s ≤ e) (hn : 1 ≤ n) (ho : NoOverflow s e n) :
    0 ≤ blockSize s e n := by
  rw [blockSize_eq hse hn ho]
  exact Int.ediv_nonneg (by omega) (by omega)

theorem blockSize_mul_le {s e n : Int} (hse : s ≤ e) (hn : 1 ≤ n) (ho : NoOverflow s e n) :
    n * blockSize s e n ≤ e - s := by
  rw [blockSize_eq hse hn ho, mul_comm]
  exact Int.ediv_mul_le _ (by omega)

theorem lt_blockSize_succ_mul {s e n : Int} (hse : s ≤ e) (hn : 1 ≤ n)
    (ho : NoOverflow s e n) : e - s < n * (blockSize s e n + 1) := by
  rw [blockSize_eq hse hn ho, mul_comm]
  exact Int.lt_ediv_add_one_mul_self _ (by omega)

theorem segmentStart_eq {s e n : Int} (hse : s ≤ e) (hn : 1 ≤ n) (ho : NoOverflow s e n)
    {i : Nat} (hi : (i : Int) < n) :
    segmentStart s (blockSize s e n) i = s + i * blockSize s e n := by
  have hb0 := blockSize_nonneg hse hn ho
  have hb1 := blockSize_mul_le hse hn ho
  obtain ⟨h1, h2, h3, h4⟩ := ho
  have hi0 : (0 : Int) ≤ i := Int.ofNat_nonneg i
  have hm0 : 0 ≤ (i : Int) * blockSize s e n := Int.mul_nonneg hi0 hb0
  have hm1 : (i : Int) * blockSize s e n ≤ n * blockSize s e n :=
    Int.mul_le_mul_of_nonneg_right (by omega) hb0
  unfold segmentStart
  rw [wrap64_eq (x := (i : Int)) (by omega) (by omega),
    wrap64_eq (x := (i : Int) * blockSize s e n) (by omega) (by omega),
    wrap64_eq (x := s) (by omega) (by omega), wrap64_eq (by omega) (by omega)]

theorem segmentEnd_eq {s e n : Int} (hse : s ≤ e) (hn : 1 ≤ n) (ho : NoOverflow s e n)
    {i : Nat} (hi : (i : Int) < n) :
    segmentEnd s e n (blockSize s e n) i =
      if (i : Int) = n - 1 then e else s + (i + 1) * blockSize s e n - 1 := by
  unfold segmentEnd
  split
  · rfl
  · rename_i hne
    rw [segmentStart_eq hse hn ho hi]
    have hb0 := blockSize_nonneg hse hn ho
    have hb1 := blockSize_mul_le hse hn ho
    obtain ⟨h1, h2, h3, h4⟩ := ho
    have hi0 : (0 : Int) ≤ i := Int.ofNat_nonneg i
    have hm0 : 0 ≤ (i : Int) * blockSize s e n := Int.mul_nonneg hi0 hb0
    have hm1 : ((i : Int) + 1) * blockSize s e n ≤ n * blockSize s e n :=
      Int.mul_le_mul_of_nonneg_right (by omega) hb0
    have hm2 : ((i : Int) + 1) * blockSize s e n
        = (i : Int) * blockSize s e n + blockSize s e n := by ring
    rw [wrap64_eq (x := s + (i : Int) * blockSize s e n) (by omega) (by omega),
      wrap64_eq (x := s + (i : Int) * blockSize s e n + blockSize s e n)
        (by omega) (by omega),
      wrap64_eq (by omega) (by omega)]
    omega

/-- Closed form of the partition on valid inputs. -/
theorem partition_eq {s e n : Int} (hse : s ≤ e) (hn : 1 ≤ n) (ho : NoOverflow s e n) :
    partition s e n = some ((List.range n.toNat).map fun (i : Nat) =>
      (s + (i : Int) * blockSize s e n,
        if (i : Int) = n - 1 then e else s + ((i : Int) + 1) * blockSize s e n - 1)) := by
  unfold partition
  rw [wrap64_eq (x := n) (by omega) ho.2.2.2, if_neg (by omega)]
  simp only [Option.some.injEq]
  apply List.map_congr_left
  intro i hi
  have hi' : (i : Int) < n := by
    have := List.mem_range.mp hi
    omega
  rw [segmentStart_eq hse hn ho hi', segmentEnd_eq hse hn ho hi']

theorem getElem?_map_range {α : Type} (f : Nat → α) (m i : Nat) (r : α) :
    ((List.range m).map f)[i]? = some r ↔ i < m ∧ f i = r := by
  by_cases h : i < m
  · simp [List.getElem?_range h, h]
  · have hnone : (List.range m)[i]? = none := by
      apply List.getElem?_eq_none
      simp
      omega
    simp [hnone, h]

/-! ## Partition: the claims -/

/-- C1. Partition coverage: for `startBlock ≤ endBlock`, `numWorkers ≥ 1` and no
`int64` overflow, the partition loop produces `numWorkers` ranges; range 0 starts
at `startBlock`, each next range starts right after the end of the one before,
the last range ends at `endBlock`, no block lies in two ranges, and a block lies
in some range exactly when it lies in `[startBlock, endBlock]`. -/
theorem partition_coverage (s e n : Int) (hse : s ≤ e) (hn : 1 ≤ n)
    (ho : NoOverflow s e n) :
    ∃ P, partition s e n = some P ∧ P.length = n.toNat ∧
      P[0]?.map Prod.fst = some s ∧
      (∀ (i : Nat) r r', P[i]? = some r → P[i + 1]? = some r' → r'.1 = r.2 + 1) ∧
      P.getLast?.map Prod.snd = some e ∧
      (∀ (i j : Nat) r r' b, i < j → P[i]? = some r → P[j]? = some r' →
        ¬ (InRange r b ∧ InRange r' b)) ∧
      (∀ b, (∃ r ∈ P, InRange r b) ↔ (s ≤ b ∧ b ≤ e)) := by
  have hb0 := blockSize_nonneg hse hn ho
  have hb1 := blockSize_mul_le hse hn ho
  have hb2 := lt_blockSize_succ_mul hse hn ho
  generalize hbs : blockSize s e n = bs at hb0 hb1 hb2
  have hP := partition_eq hse hn ho
  rw [hbs] at hP
  refine ⟨_, hP, by simp, ?_, ?_, ?_, ?_, ?_⟩
  · have h0 : 0 < n.toNat := by omega
    simp [List.getElem?_range h0]
  · intro i r r' hr hr'
    rw [getElem?_map_range] at hr hr'
    obtain ⟨hi, rfl⟩ := hr
    obtain ⟨hi', rfl⟩ := hr'
    have hne : ¬ ((i : Int) = n - 1) := by omega
    simp only [hne, if_false]
    push_cast
    ring
  · rw [List.getLast?_map, List.getLast?_range]
    have h0 : ¬ (n.toNat = 0) := by omega
    have hl : ((n.toNat - 1 : Nat) : Int) = n - 1 := by omega
    simp [h0, hl]
  · intro i j r r' b hij hr hr' hb
    rw [getElem?_map_range] at hr hr'
    obtain ⟨hi, rfl⟩ := hr
    obtain ⟨hj, rfl⟩ := hr'
    obtain ⟨⟨_, h2⟩, ⟨h3, _⟩⟩ := hb
    have hne : ¬ ((i : Int) = n - 1) := by omega
    simp only [hne, if_false] at h2
    simp only at h3
    have hmono : ((i : Int) + 1) * bs ≤ (j : Int) * bs :=
      Int.mul_le_mul_of_nonneg_right (by omega) hb0
    omega
  · intro b
    constructor
    · rintro ⟨r, hr, hlo, hhi⟩
      rw [List.mem_map] at hr
      obtain ⟨i, hi, rfl⟩ := hr
      have hi' : i < n.toNat := List.mem_range.mp hi
      have hi0 : (0 : Int) ≤ i := Int.ofNat_nonneg i
      have hm0 : 0 ≤ (i : Int) * bs := Int.mul_nonneg hi0 hb0
      simp only at hlo hhi
      refine ⟨by omega, ?_⟩
      split at hhi
      · exact hhi
      · have hmono : ((i : Int) + 1) * bs ≤ n * bs :=
          Int.mul_le_mul_of_nonneg_right (by omega) hb0
        omega
    · rintro ⟨hlo, hhi⟩
      by_cases hlast : s + (n - 1) * bs ≤ b
      · refine ⟨_, List.mem_map.mpr ⟨n.toNat - 1, List.mem_range.mpr (by omega), rfl⟩, ?_⟩
        have hl : ((n.toNat - 1 : Nat) : Int) = n - 1 := by omega
        simp only [InRange, hl, if_true]
        exact ⟨hlast, hhi⟩
      · have hlt : b - s < (n - 1) * bs := by omega
        have hbpos : 0 < bs := by
          by_contra h
          have hz : bs = 0 := by omega
          rw [hz] at hlt
          simp at hlt
          omega
        have hq0 : 0 ≤ (b - s) / bs := Int.ediv_nonneg (by omega) (by omega)
        have hq1 : (b - s) / bs * bs ≤ b - s := Int.ediv_mul_le _ (by omega)
        have hq2 : b - s < ((b - s) / bs + 1) * bs := Int.lt_ediv_add_one_mul_self _ hbpos
        have hq3 : (b - s) / bs < n - 1 := by
          by_contra hcon
          have : (n - 1) * bs ≤ (b - s) / bs * bs :=
            Int.mul_le_mul_of_nonneg_right (by omega) hb0
          omega
        have hk : (((b - s) / bs).toNat : Int) = (b - s) / bs := Int.toNat_of_nonneg hq0
        refine ⟨_, List.mem_map.mpr ⟨((b - s) / bs).toNat,
          List.mem_range.mpr (by omega), rfl⟩, ?_⟩
        have hne : ¬ ((b - s) / bs = n - 1) := by omega
        simp only [InRange, hk, hne, if_false]
        constructor <;> omega

/-- Witness of C1 at the constants of `main`: blocks 0 to 6000, 10 workers. -/
theorem partition_coverage_witness :
    ∃ P, partition 0 6000 10 = some P ∧ P.length = (10 : Int).toNat ∧
      P[0]?.map Prod.fst = some 0 ∧
      (∀ (i : Nat) r r', P[i]? = some r → P[i + 1]? = some r' → r'.1 = r.2 + 1) ∧
      P.getLast?.map Prod.snd = some 6000 ∧
      (∀ (i j : Nat) r r' b, i < j → P[i]? = some r → P[j]? = some r' →
        ¬ (InRange r b ∧ InRange r' b)) ∧
      (∀ b, (∃ r ∈ P, InRange r b) ↔ ((0 : Int) ≤ b ∧ b ≤ 6000)) :=
  partition_coverage 0 6000 10 (by decide) (by decide) (by unfold NoOverflow; decide)

/-- C2, as stated, fails: for blocks 0 to 9 and 2 workers the partition is not
`[0,4]`, `[5,9]`. -/
theorem partition_scenario_counterexample :
    partition 0 9 2 ≠ some [(0, 4), (5, 9)] := by
  decide

/-- C2, amended: for blocks 0 to 9 and 2 workers the block size is `9 / 2 = 4`
and the partition is exactly `[0,3]`, `[4,9]`. -/
theorem partition_scenario :
    blockSize 0 9 2 = 4 ∧ partition 0 9 2 = some [(0, 3), (4, 9)] := by
  decide

/-- C6, as stated, fails: a valid input with more workers than the span has
ranges whose end is below their start (blocks 0 to 1, 3 workers). -/
theorem range_invariant_counterexample :
    ¬ ∀ s e n : Int, s ≤ e → 1 ≤ n → NoOverflow s e n →
      ∀ P, partition s e n = some P → ∀ r ∈ P, r.1 ≤ r.2 := by
  intro h
  have h1 := h 0 1 3 (by decide) (by decide) (by unfold NoOverflow; decide)
    [(0, -1), (0, -1), (0, 1)] (by decide) (0, -1) (by decide)
  exact absurd h1 (by decide)

/-- C6, amended: on a valid input the last range always has start ≤ end; when
`numWorkers ≤ endBlock - startBlock` every range has start ≤ end; when
`numWorkers > endBlock - startBlock` every range before the last is the empty
range whose end is its start minus one. -/
theorem range_invariant (s e n : Int) (hse : s ≤ e) (hn : 1 ≤ n)
    (ho : NoOverflow s e n) :
    ∃ P, partition s e n = some P ∧ P.length = n.toNat ∧
      (∀ r, P.getLast? = some r → r.1 ≤ r.2) ∧
      (n ≤ e - s → ∀ r ∈ P, r.1 ≤ r.2) ∧
      (e - s < n → ∀ (i : Nat) r, i + 1 < n.toNat → P[i]? = some r → r.2 = r.1 - 1) := by
  have hb0 := blockSize_nonneg hse hn ho
  have hb1 := blockSize_mul_le hse hn ho
  have hb2 := lt_blockSize_succ_mul hse hn ho
  generalize hbs : blockSize s e n = bs at hb0 hb1 hb2
  have hP := partition_eq hse hn ho
  rw [hbs] at hP
  refine ⟨_, hP, by simp, ?_, ?_, ?_⟩
  · intro r hr
    rw [List.getLast?_map, List.getLast?_range] at hr
    have h0 : ¬ (n.toNat = 0) := by omega
    have hl : ((n.toNat - 1 : Nat) : Int) = n - 1 := by omega
    simp only [h0, if_false, Option.map_some', hl, if_true, Option.some.injEq] at hr
    subst hr
    simp only
    have hmono : (n - 1) * bs ≤ n * bs := Int.mul_le_mul_of_nonneg_right (by omega) hb0
    omega
  · intro hspan r hr
    rw [List.mem_map] at hr
    obtain ⟨i, hi, rfl⟩ := hr
    have hi' : i < n.toNat := List.mem_range.mp hi
    have hbpos : 1 ≤ bs := by
      by_contra h
      have hz : bs = 0 := by omega
      rw [hz] at hb2
      omega
    simp only
    split
    · rename_i hlast
      rw [hlast]
      have hmono : (n - 1) * bs ≤ n * bs := Int.mul_le_mul_of_nonneg_right (by omega) hb0
      omega
    · have hexp : ((i : Int) + 1) * bs = (i : Int) * bs + bs := by ring
      omega
  · intro hspan i r hi hr
    rw [getElem?_map_range] at hr
    obtain ⟨_, rfl⟩ := hr
    have hz : bs = 0 := by
      by_contra h
      have hmono : n * 1 ≤ n * bs := Int.mul_le_mul_of_nonneg_left (by omega) (by omega)
      omega
    have hne : ¬ ((i : Int) = n - 1) := by omega
    simp only [hne, if_false, hz]
    omega

/-- Witness of the amended C6 at blocks 0 to 1 with 3 workers. -/
theorem range_invariant_witness :
    ∃ P, partition 0 1 3 = some P ∧ P.length = (3 : Int).toNat ∧
      (∀ r, P.getLast? = some r → r.1 ≤ r.2) ∧
      ((3 : Int) ≤ 1 - 0 → ∀ r ∈ P, r.1 ≤ r.2) ∧
      ((1 : Int) - 0 < 3 → ∀ (i : Nat) r, i + 1 < (3 : Int).toNat → P[i]? = some r →
        r.2 = r.1 - 1) :=
  range_invariant 0 1 3 (by decide) (by decide) (by unfold NoOverflow; decide)

/-! ## Scanner: the match predicate -/

/-- With an injective, never empty `hex`, line 53 of main.go decides
`sender = wallet ∨ tx.To = some wallet`. -/
theorem isMatch_iff {A : Type} [DecidableEq A] (hex : A → String)
    (hinj : Function.Injective hex) (hne : ∀ a, hex a ≠ "") (w sender : A)
    (tx : Transaction A) :
    isMatch hex w sender (toField hex tx) = true ↔ (sender = w ∨ tx.To = some w) := by
  unfold isMatch toField
  cases hto : tx.To with
  | none =>
    have h1 : ¬ ("" = hex w) := fun h => hne w h.symm
    simp [h1]
  | some a =>
    have h1 : hex a = hex w ↔ a = w := ⟨fun h => hinj h, fun h => by rw [h]⟩
    simp [h1]

/-- Line 75 of old.go decides `sender = wallet ∨ tx.To = some wallet`. -/
theorem isMatchOld_iff {A : Type} [DecidableEq A] (w sender : A) (tx : Transaction A) :
    isMatchOld w tx sender = true ↔ (sender = w ∨ tx.To = some w) := by
  unfold isMatchOld
  cases hto : tx.To with
  | none => simp
  | some a =>
    simp only [Bool.or_eq_true, decide_eq_true_eq, Option.some.injEq]
    exact Or.comm

/-- C7. Match predicate: with an injective, never empty hex rendering, for a
transaction whose sender recovery succeeds the scanner sends exactly one record
(hash, sender hex, recipient hex or empty, value, block time) when the sender is
the target or the recipient exists and is the target, and nothing otherwise; the
string comparison of main.go and the address comparison of old.go agree; a
contract creation matches only through its sender. -/
theorem match_predicate {A : Type} [DecidableEq A] (hex : A → String)
    (hinj : Function.Injective hex) (hne : ∀ a, hex a ≠ "") (w : A) (time : Nat)
    (st : Scan) (tx : Transaction A) (sender : A) (hs : tx.sender = some sender) :
    ((scanTx hex w time st tx).sent ≠ st.sent ↔ (sender = w ∨ ∃ r, tx.To = some r ∧ r = w)) ∧
    (scanTx hex w time st tx).sent =
      (if sender = w ∨ tx.To = some w then
        st.sent ++ [⟨tx.hashHex, hex sender, toField hex tx, tx.value, time⟩]
      else st.sent) ∧
    isMatch hex w sender (toField hex tx) = isMatchOld w tx sender ∧
    (tx.To = none → ((scanTx hex w time st tx).sent ≠ st.sent ↔ sender = w)) := by
  have hm := isMatch_iff hex hinj hne w sender tx
  have ho := isMatchOld_iff w sender tx
  have hsent : (scanTx hex w time st tx).sent =
      (if sender = w ∨ tx.To = some w then
        st.sent ++ [⟨tx.hashHex, hex sender, toField hex tx, tx.value, time⟩]
      else st.sent) := by
    unfold scanTx
    rw [hs]
    by_cases hp : sender = w ∨ tx.To = some w
    · simp only [hm.mpr hp, if_true, hp]
    · have hf : isMatch hex w sender (toField hex tx) = false := by
        cases hb : isMatch hex w sender (toField hex tx) with
        | false => rfl
        | true => exact absurd (hm.mp hb) hp
      simp only [hf, hp, if_false, Bool.false_eq_true]
  have hiff : (scanTx hex w time st tx).sent ≠ st.sent ↔ (sender = w ∨ tx.To = some w) := by
    rw [hsent]
    by_cases hp : sender = w ∨ tx.To = some w
    · simp [hp]
    · simp [hp]
  refine ⟨?_, hsent, ?_, ?_⟩
  · rw [hiff]
    constructor
    · rintro (h | h)
      · exact Or.inl h
      · exact Or.inr ⟨w, h, rfl⟩
    · rintro (h | ⟨r, h, rfl⟩)
      · exact Or.inl h
      · exact Or.inr h
  · cases hb : isMatchOld w tx sender with
    | true => exact hm.mpr (ho.mp hb)
    | false =>
      cases hb' : isMatch hex w sender (toField hex tx) with
      | false => rfl
      | true =>
        rw [ho.mpr (hm.mp hb')] at hb
        exact absurd hb (by decide)
  · intro hnone
    rw [hiff, hnone]
    simp

/-- Witness of C7: two addresses, the target receives a transfer from the other. -/
theorem match_predicate_witness :
    ((scanTx (fun b : Bool => if b then "0x01" else "0x00") true 7 ⟨3, [3], [], []⟩
        ⟨"0xaa", some false, some true, "5"⟩).sent ≠ [] ↔
      (false = true ∨ ∃ r, (some true : Option Bool) = some r ∧ r = true)) ∧
    (scanTx (fun b : Bool => if b then "0x01" else "0x00") true 7 ⟨3, [3], [], []⟩
        ⟨"0xaa", some false, some true, "5"⟩).sent =
      (if false = true ∨ (some true : Option Bool) = some true then
        [] ++ [⟨"0xaa", "0x00", "0x01", "5", 7⟩]
      else []) ∧
    isMatch (fun b : Bool => if b then "0x01" else "0x00") true false "0x01" =
      isMatchOld true ⟨"0xaa", some false, some true, "5"⟩ false ∧
    ((some true : Option Bool) = none →
      ((scanTx (fun b : Bool => if b then "0x01" else "0x00") true 7 ⟨3, [3], [], []⟩
        ⟨"0xaa", some false, some true, "5"⟩).sent ≠ [] ↔ false = true)) :=
  match_predicate (fun b : Bool => if b then "0x01" else "0x00")
    (by intro a b; cases a <;> cases b <;> decide)
    (by intro a; cases a <;> decide) true 7 ⟨3, [3], [], []⟩
    ⟨"0xaa", some false, some true, "5"⟩ false rfl

/-! ## Scanner: the loops -/

/-- One transaction: the block number and the fetch list are untouched and the
record of the transaction, if any, is appended to the records sent. -/
theorem scanTx_view {A : Type} [DecidableEq A] (hex : A → String) (w : A) (time : Nat)
    (st : Scan) (tx : Transaction A) :
    (scanTx hex w time st tx).startBlock = st.startBlock ∧
    (scanTx hex w time st tx).fetched = st.fetched ∧
    (scanTx hex w time st tx).sent = st.sent ++ (matchRecord hex w time tx).toList := by
  unfold scanTx matchRecord
  cases tx.sender with
  | none => simp
  | some sender =>
    by_cases hm : isMatch hex w sender (toField hex tx) = true
    · simp [hm, recordOf]
    · simp [hm]

/-- The loop over the transactions of a block appends the matching records in
transaction-list order. -/
theorem foldl_scanTx_view {A : Type} [DecidableEq A] (hex : A → String) (w : A)
    (time : Nat) (txs : List (Transaction A)) (st : Scan) :
    (txs.foldl (scanTx hex w time) st).startBlock = st.startBlock ∧
    (txs.foldl (scanTx hex w time) st).fetched = st.fetched ∧
    (txs.foldl (scanTx hex w time) st).sent =
      st.sent ++ txs.filterMap (matchRecord hex w time) := by
  induction txs generalizing st with
  | nil => simp
  | cons tx rest ih =>
    obtain ⟨h1, h2, h3⟩ := scanTx_view hex w time st tx
    obtain ⟨i1, i2, i3⟩ := ih (scanTx hex w time st tx)
    rw [List.foldl_cons]
    refine ⟨i1.trans h1, i2.trans h2, ?_⟩
    rw [i3, h3, List.filterMap_cons]
    cases matchRecord hex w time tx <;> simp

/-- One iteration of the block loop, seen from outside. -/
theorem iteration_view {A : Type} [DecidableEq A] (node : Nat → Int → Option (Block A))
    (hex : A → String) (w : A) (st : Scan) :
    (iteration node hex w st).view =
      (match node st.fetched.length st.startBlock with
        | none => st.startBlock
        | some _ => st.startBlock + 1,
       st.fetched ++ [st.startBlock],
       st.sent ++ answerRecords hex w (node st.fetched.length st.startBlock)) := by
  unfold iteration Scan.view answerRecords matching
  cases node st.fetched.length st.startBlock with
  | none => simp
  | some block =>
    obtain ⟨h1, h2, h3⟩ := foldl_scanTx_view hex w block.time block.transactions
      ⟨st.startBlock, st.fetched ++ [st.startBlock], st.logs, st.sent⟩
    simp only [h1, h2, h3]

/-- The block loop on a stretch of `m` remaining blocks whose fetches all
succeed: with fuel for `m` iterations it returns, having fetched the `m` blocks
in increasing order and sent their matching records in that order. -/
theorem fetchLoop_ok {A : Type} [DecidableEq A] (node : Nat → Int → Option (Block A))
    (hex : A → String) (w : A) (e : Int) :
    ∀ (m fuel : Nat) (st : Scan), (e - st.startBlock + 1).toNat = m → m ≤ fuel →
      (∀ j : Nat, j < m → node (st.fetched.length + j) (st.startBlock + (j : Int)) ≠ none) →
      ∃ r, fetchLoop node hex w e fuel st = some r ∧
        r.view = (st.startBlock + (m : Int),
          st.fetched ++ (List.range m).map (fun j : Nat => st.startBlock + (j : Int)),
          st.sent ++ (List.range m).flatMap (fun j : Nat =>
            answerRecords hex w (node (st.fetched.length + j) (st.startBlock + (j : Int))))) := by
  intro m
  induction m with
  | zero =>
    intro fuel st hm _ _
    have hgt : ¬ (st.startBlock ≤ e) := by omega
    refine ⟨st, ?_, by simp [Scan.view]⟩
    cases fuel <;> simp [fetchLoop, hgt]
  | succ m ih =>
    intro fuel st hm hfuel hok
    have hle : st.startBlock ≤ e := by omega
    obtain ⟨f, rfl⟩ : ∃ f, fuel = f + 1 := ⟨fuel - 1, by omega⟩
    have hv := iteration_view node hex w st
    have h0 := hok 0 (by omega)
    simp only [Nat.add_zero, Int.Nat.cast_ofNat_Int, Int.add_zero, Nat.cast_zero] at h0
    obtain ⟨blk, hblk⟩ := Option.ne_none_iff_exists'.mp h0
    rw [hblk] at hv
    simp only [Scan.view, Prod.mk.injEq] at hv
    obtain ⟨hv1, hv2, hv3⟩ := hv
    have hstep : ∀ j : Nat, j < m →
        node ((iteration node hex w st).fetched.length + j)
          ((iteration node hex w st).startBlock + (j : Int)) ≠ none := by
      intro j hj
      have h := hok (j + 1) (by omega)
      rw [hv1, hv2]
      have e1 : (st.fetched ++ [st.startBlock]).length + j = st.fetched.length + (j + 1) := by
        simp
        omega
      have e2 : st.startBlock + 1 + (j : Int) = st.startBlock + ((j + 1 : Nat) : Int) := by
        push_cast
        ring
      rw [e1, e2]
      exact h
    have hrem : (e - (iteration node hex w st).startBlock + 1).toNat = m := by
      have h2 : e - (st.startBlock + 1) + 1 = e - st.startBlock := by ring
      rw [hv1, h2]
      omega
    obtain ⟨r, hr, hrv⟩ := ih f (iteration node hex w st) hrem (by omega) hstep
    refine ⟨r, ?_, ?_⟩
    · simp only [fetchLoop, hle, if_true]
      exact hr
    · rw [hrv, hv1, hv2, hv3, List.range_succ_eq_map]
      simp only [List.map_cons, List.map_map, List.flatMap_cons, List.flatMap_map,
        List.append_assoc, List.singleton_append, Prod.mk.injEq]
      refine ⟨by push_cast; ring, ?_, ?_⟩
      · congr 2
        · simp
        · apply List.map_congr_left
          intro j _
          simp only [Function.comp, Nat.succ_eq_add_one]
          push_cast
          ring
      · congr 2
        · simp [hblk]
        · apply List.flatMap_congr
          intro j _
          have e1 : (st.fetched ++ [st.startBlock]).length + j
              = st.fetched.length + (j + 1) := by
            simp
            omega
          have e2 : st.startBlock + 1 + (j : Int) = st.startBlock + ((j + 1 : Nat) : Int) := by
            push_cast
            ring
          simp only [Function.comp, Nat.succ_eq_add_one]
          rw [e1, e2]

/-- C9. Scanner order and exactly-once visiting: when every fetch of a block of
`[s, e]` succeeds, `fetchTransactions` returns (with fuel for `e - s + 1`
iterations), the blocks it fetched are `s, s+1, ..., e` in this order (each block
of the range, each once, strictly increasing), and the records it sent are the
concatenation over those blocks, in that order, of each block's matching
transactions in transaction-list order; when `s > e` it returns at once with no
block fetched, nothing logged and no record sent. -/
theorem scanner_order {A : Type} [DecidableEq A] (node : Nat → Int → Option (Block A))
    (hex : A → String) (w : A) (s e : Int)
    (hok : ∀ (k : Nat) (b : Int), s ≤ b → b ≤ e → node k b ≠ none) :
    (∀ fuel : Nat, (e - s + 1).toNat ≤ fuel →
      ∃ r, fetchTransactions node hex fuel s e w = some r ∧
        r.fetched = (List.range (e - s + 1).toNat).map (fun j : Nat => s + (j : Int)) ∧
        (∀ b, b ∈ r.fetched ↔ (s ≤ b ∧ b ≤ e)) ∧
        r.fetched.Pairwise (fun a b => a < b) ∧
        r.sent = (List.range (e - s + 1).toNat).flatMap
          (fun j : Nat => answerRecords hex w (node j (s + (j : Int))))) ∧
    (e < s → ∀ fuel : Nat, fetchTransactions node hex fuel s e w = some ⟨s, [], [], []⟩) := by
  constructor
  · intro fuel hfuel
    obtain ⟨r, hr, hrv⟩ := fetchLoop_ok node hex w e (e - s + 1).toNat fuel ⟨s, [], [], []⟩
      rfl hfuel (by
        intro j hj
        apply hok
        · simp only
          omega
        · simp only
          omega)
    simp only [Scan.view, Prod.mk.injEq, List.nil_append, List.length_nil, Nat.zero_add]
      at hrv
    obtain ⟨_, hf, hs⟩ := hrv
    refine ⟨r, hr, hf, ?_, ?_, hs⟩
    · intro b
      rw [hf, List.mem_map]
      constructor
      · rintro ⟨j, hj, rfl⟩
        have := List.mem_range.mp hj
        omega
      · rintro ⟨h1, h2⟩
        exact ⟨(b - s).toNat, List.mem_range.mpr (by omega), by omega⟩
    · rw [hf, List.pairwise_map]
      exact (List.pairwise_lt_range _).imp (by intro a b hab; omega)
  · intro hlt fuel
    have hgt : ¬ (s ≤ e) := by omega
    cases fuel <;> simp [fetchTransactions, fetchLoop, hgt]

/-- Witness of C9: blocks 3 and 4, each holding one transfer to the target. -/
theorem scanner_order_witness :
    (∀ fuel : Nat, ((4 : Int) - 3 + 1).toNat ≤ fuel →
      ∃ r, fetchTransactions (fun _ b => some ⟨[⟨"0xaa", some false, some true, "5"⟩], b.toNat⟩)
          (fun b : Bool => if b then "0x01" else "0x00") fuel 3 4 true = some r ∧
        r.fetched = (List.range ((4 : Int) - 3 + 1).toNat).map (fun j : Nat => 3 + (j : Int)) ∧
        (∀ b, b ∈ r.fetched ↔ ((3 : Int) ≤ b ∧ b ≤ 4)) ∧
        r.fetched.Pairwise (fun a b => a < b) ∧
        r.sent = (List.range ((4 : Int) - 3 + 1).toNat).flatMap
          (fun j : Nat => answerRecords (fun b : Bool => if b then "0x01" else "0x00") true
            ((fun (_ : Nat) (b : Int) =>
              some (⟨[⟨"0xaa", some false, some true, "5"⟩], b.toNat⟩ : Block Bool))
              j (3 + (j : Int))))) ∧
    ((4 : Int) < 3 → ∀ fuel : Nat,
      fetchTransactions (fun _ b => some ⟨[⟨"0xaa", some false, some true, "5"⟩], b.toNat⟩)
        (fun b : Bool => if b then "0x01" else "0x00") fuel 3 4 true = some ⟨3, [], [], []⟩) :=
  scanner_order (fun _ b => some ⟨[⟨"0xaa", some false, some true, "5"⟩], b.toNat⟩)
    (fun b : Bool => if b then "0x01" else "0x00") true 3 4 (by intro k b _ _; simp)

/-- The run of the witness of C9, evaluated: blocks 3 and 4 fetched in order, one
record per block. -/
theorem scanner_order_run :
    fetchTransactions (fun _ b => some ⟨[⟨"0xaa", some false, some true, "5"⟩], b.toNat⟩)
      (fun b : Bool => if b then "0x01" else "0x00") 2 3 4 true =
    some ⟨5, [3, 4], [], [⟨"0xaa", "0x00", "0x01", "5", 3⟩, ⟨"0xaa", "0x00", "0x01", "5", 4⟩]⟩ := by
  decide

/-! ## Scanner: failures -/

/-- Two nodes that fail on the same calls and whose answers hold the same
matching records drive the block loop to the same block numbers, the same
fetches and the same records, and to termination with the same fuel. -/
theorem fetchLoop_congr {A : Type} [DecidableEq A] (node node' : Nat → Int → Option (Block A))
    (hex : A → String) (w : A) (e : Int)
    (h : ∀ (k : Nat) (b : Int), ((node k b).isSome = (node' k b).isSome) ∧
      answerRecords hex w (node k b) = answerRecords hex w (node' k b)) :
    ∀ (fuel : Nat) (st st' : Scan), st.view = st'.view →
      (fetchLoop node hex w e fuel st).map Scan.view =
        (fetchLoop node' hex w e fuel st').map Scan.view := by
  have hiter : ∀ st st' : Scan, st.view = st'.view →
      (iteration node hex w st).view = (iteration node' hex w st').view := by
    intro st st' hv
    rw [iteration_view, iteration_view]
    simp only [Scan.view, Prod.mk.injEq] at hv
    obtain ⟨h1, h2, h3⟩ := hv
    obtain ⟨hs, ha⟩ := h st'.fetched.length st'.startBlock
    rw [h1, h2, h3, ha]
    cases hn : node st'.fetched.length st'.startBlock <;>
      cases hn' : node' st'.fetched.length st'.startBlock <;>
      simp [hn, hn'] at hs ⊢
  intro fuel
  induction fuel with
  | zero =>
    intro st st' hv
    have h1 : st.startBlock = st'.startBlock := by
      simp only [Scan.view, Prod.mk.injEq] at hv
      exact hv.1
    by_cases hc : st'.startBlock ≤ e
    · simp [fetchLoop, h1, hc]
    · simp [fetchLoop, h1, hc, hv]
  | succ f ih =>
    intro st st' hv
    have h1 : st.startBlock = st'.startBlock := by
      simp only [Scan.view, Prod.mk.injEq] at hv
      exact hv.1
    by_cases hc : st'.startBlock ≤ e
    · simp only [fetchLoop, h1, hc, if_true]
      exact ih _ _ (hiter st st' hv)
    · simp [fetchLoop, h1, hc, hv]

/-- Removing from a list an element that contributes no record leaves the
records unchanged. -/
theorem filterMap_eraseIdx_of_none {α β : Type} (f : α → Option β) :
    ∀ (l : List α) (i : Nat) (a : α), l[i]? = some a → f a = none →
      (l.eraseIdx i).filterMap f = l.filterMap f := by
  intro l
  induction l with
  | nil => intro i a h; simp at h
  | cons x rest ih =>
    intro i a h hf
    cases i with
    | zero =>
      simp only [List.getElem?_cons_zero, Option.some.injEq] at h
      subst h
      simp [List.filterMap_cons, hf]
    | succ i =>
      simp only [List.getElem?_cons_succ] at h
      simp only [List.eraseIdx_cons_succ, List.filterMap_cons]
      rw [ih i a h hf]

/-- C8. Per-transaction recovery failure is isolated: when the sender recovery of
the transaction `T` at position `i` of a fetched block fails, `T` adds no record
(it only adds a log line), and the scanner run on any range ends with the same
final block number, the same fetches and exactly the same records sent as the
run against the node whose block has `T` removed, returning with the same fuel:
the rest of the block and the later blocks are processed as if `T` were absent. -/
theorem recovery_failure_isolated {A : Type} [DecidableEq A]
    (node : Nat → Int → Option (Block A)) (hex : A → String) (w : A) (k : Nat) (b : Int)
    (i : Nat) (block : Block A) (T : Transaction A) (hblock : node k b = some block)
    (hT : block.transactions[i]? = some T) (hfail : T.sender = none) :
    (∀ (time : Nat) (st : Scan),
      (scanTx hex w time st T).sent = st.sent ∧
      (scanTx hex w time st T).logs = st.logs ++ [LogEntry.senderFailed]) ∧
    ∀ (fuel : Nat) (s e : Int),
      (fetchTransactions node hex fuel s e w).map Scan.view =
        (fetchTransactions (removeTx node k b i) hex fuel s e w).map Scan.view := by
  constructor
  · intro time st
    simp [scanTx, hfail]
  · intro fuel s e
    apply fetchLoop_congr
    · intro k' b'
      unfold removeTx
      by_cases hkb : k' = k ∧ b' = b
      · obtain ⟨rfl, rfl⟩ := hkb
        simp only [and_self, if_true, hblock, Option.map_some', Option.isSome_some,
          answerRecords, matching, true_and]
        have hnone : matchRecord hex w block.time T = none := by
          simp [matchRecord, hfail]
        exact (filterMap_eraseIdx_of_none _ _ i T hT hnone).symm
      · simp [hkb]
    · rfl

/-- Witness of C8: block 5 holds a transaction whose sender cannot be recovered
between two transfers to the target; block 6 follows. -/
theorem recovery_failure_isolated_witness :
    (∀ (time : Nat) (st : Scan),
      (scanTx (fun b : Bool => if b then "0x01" else "0x00") true time st
        ⟨"0xbb", none, some true, "1"⟩).sent = st.sent ∧
      (scanTx (fun b : Bool => if b then "0x01" else "0x00") true time st
        ⟨"0xbb", none, some true, "1"⟩).logs = st.logs ++ [LogEntry.senderFailed]) ∧
    ∀ (fuel : Nat) (s e : Int),
      (fetchTransactions (fun _ _ => some ⟨[⟨"0xaa", some false, some true, "5"⟩,
          ⟨"0xbb", none, some true, "1"⟩, ⟨"0xcc", some false, some true, "2"⟩], 9⟩)
        (fun b : Bool => if b then "0x01" else "0x00") fuel s e true).map Scan.view =
      (fetchTransactions (removeTx (fun _ _ => some ⟨[⟨"0xaa", some false, some true, "5"⟩,
          ⟨"0xbb", none, some true, "1"⟩, ⟨"0xcc", some false, some true, "2"⟩], 9⟩) 0 5 1)
        (fun b : Bool => if b then "0x01" else "0x00") fuel s e true).map Scan.view :=
  recovery_failure_isolated (fun _ _ => some ⟨[⟨"0xaa", some false, some true, "5"⟩,
      ⟨"0xbb", none, some true, "1"⟩, ⟨"0xcc", some false, some true, "2"⟩], 9⟩)
    (fun b : Bool => if b then "0x01" else "0x00") true 0 5 1
    ⟨[⟨"0xaa", some false, some true, "5"⟩, ⟨"0xbb", none, some true, "1"⟩,
      ⟨"0xcc", some false, some true, "2"⟩], 9⟩ ⟨"0xbb", none, some true, "1"⟩ rfl rfl rfl

/-- The run of the witness of C8 on blocks 5 to 6, evaluated: both blocks are
fetched, the failing transaction is logged in each and the other two
transactions of each block are sent. -/
theorem recovery_failure_run :
    fetchTransactions (fun _ _ => some ⟨[⟨"0xaa", some false, some true, "5"⟩,
        ⟨"0xbb", none, some true, "1"⟩, ⟨"0xcc", some false, some true, "2"⟩], 9⟩)
      (fun b : Bool => if b then "0x01" else "0x00") 2 5 6 true =
    some ⟨7, [5, 6], [LogEntry.senderFailed, LogEntry.senderFailed],
      [⟨"0xaa", "0x00", "0x01", "5", 9⟩, ⟨"0xcc", "0x00", "0x01", "2", 9⟩,
       ⟨"0xaa", "0x00", "0x01", "5", 9⟩, ⟨"0xcc", "0x00", "0x01", "2", 9⟩]⟩ := by
  decide

/-- While the node answers every call for the current block with an error the
block loop stays on that block and never returns. -/
theorem fetchLoop_stuck {A : Type} [DecidableEq A] (node : Nat → Int → Option (Block A))
    (hex : A → String) (w : A) (e : Int) :
    ∀ (fuel : Nat) (st : Scan), st.startBlock ≤ e → (∀ k, node k st.startBlock = none) →
      fetchLoop node hex w e fuel st = none := by
  intro fuel
  induction fuel with
  | zero =>
    intro st hle _
    simp [fetchLoop, hle]
  | succ f ih =>
    intro st hle hfail
    have hsame : (iteration node hex w st).startBlock = st.startBlock := by
      simp [iteration, hfail]
    simp only [fetchLoop, hle, if_true]
    apply ih
    · rw [hsame]
      exact hle
    · rw [hsame]
      exact hfail

/-- C3, the code at the failing input. On the range `[5, 6]`: when the fetch of
block 5 fails, the iteration logs it and leaves the current block at 5 (not 6);
against a node that fails only on the first call block 5 is fetched twice before
the scanner moves on; against a node that fails on every call for block 5 the
scanner never returns, whatever the fuel, so it never reaches block 6. -/
theorem fetch_failure_retries_block :
    iteration (fun _ _ => (none : Option (Block Bool)))
        (fun b : Bool => if b then "0x01" else "0x00") true ⟨5, [], [], []⟩ =
      ⟨5, [5], [LogEntry.blockFailed 5], []⟩ ∧
    fetchTransactions (fun k _ => if k = 0 then none else some (⟨[], 9⟩ : Block Bool))
        (fun b : Bool => if b then "0x01" else "0x00") 3 5 6 true =
      some ⟨7, [5, 5, 6], [LogEntry.blockFailed 5], []⟩ ∧
    ∀ fuel : Nat,
      fetchTransactions (fun _ b => if b = 5 then none else some (⟨[], 9⟩ : Block Bool))
        (fun b : Bool => if b then "0x01" else "0x00") fuel 5 6 true = none := by
  refine ⟨by decide, by decide, ?_⟩
  intro fuel
  apply fetchLoop_stuck
  · decide
  · intro k
    simp

/-! ## Writer -/

/-- The writer loop on received records followed by further `select` outcomes:
each record with a non-empty hash adds its row, in arrival order. -/
theorem writeLoop_data (rfc3339 : Int → String) :
    ∀ (received : List TransactionData) (rows : List (List String)) (rest : List Selected),
      writeLoop rfc3339 (received.map Selected.data ++ rest) rows =
        writeLoop rfc3339 rest
          (rows ++ (received.filter (fun r => decide (r.Hash ≠ ""))).map (csvRow rfc3339)) := by
  intro received
  induction received with
  | nil => intro rows rest; simp
  | cons r tail ih =>
    intro rows rest
    have hstep : writeLoop rfc3339 ((r :: tail).map Selected.data ++ rest) rows =
        writeLoop rfc3339 (tail.map Selected.data ++ rest) (writeRecord rfc3339 rows r) := rfl
    rw [hstep, ih]
    by_cases hr : r.Hash = ""
    · simp [writeRecord, hr]
    · simp [writeRecord, hr]

/-- Line 86 on the largest `uint64` timestamp: `int64(2^64 - 1)` is `-1`, so the
Timestamp field of the row is the rendering of `-1`. -/
theorem csvRow_wraps (rfc3339 : Int → String) (hash sender recipient value : String) :
    csvRow rfc3339 ⟨hash, sender, recipient, value, 2 ^ 64 - 1⟩ =
      [hash, sender, recipient, value, rfc3339 (-1)] := by
  have hw : wrap64 ((2 ^ 64 - 1 : Nat) : Int) = -1 := by decide
  simp only [csvRow, hw]

/-- C10, as stated, fails: a record whose `uint64` timestamp is `2^64 - 1` is
written with the rendering of `int64(2^64 - 1) = -1` in its Timestamp field,
whatever the formatter, so the rows are not, for every received sequence, the
rows holding the rendering of the timestamp itself (a formatter that tells a
negative number of seconds from a non-negative one shows the difference). -/
theorem writer_rows_counterexample :
    (∀ rfc3339 : Int → String,
      (writeCSV rfc3339 [Selected.data ⟨"0xaa", "0x00", "0x01", "5", 2 ^ 64 - 1⟩,
        Selected.done]).1 = [header, ["0xaa", "0x00", "0x01", "5", rfc3339 (-1)]]) ∧
    ¬ ∀ (rfc3339 : Int → String) (received : List TransactionData),
      (writeCSV rfc3339 (received.map Selected.data ++ [Selected.done])).1 =
        ["Transaction Hash", "From", "To", "Value", "Timestamp"] ::
          (received.filter (fun r => decide (r.Hash ≠ ""))).map
            (fun r => [r.Hash, r.From, r.To, r.Value, rfc3339 (r.timestamp : Int)]) := by
  have hrow : ∀ rfc3339 : Int → String,
      (writeCSV rfc3339 [Selected.data ⟨"0xaa", "0x00", "0x01", "5", 2 ^ 64 - 1⟩,
        Selected.done]).1 = [header, ["0xaa", "0x00", "0x01", "5", rfc3339 (-1)]] := by
    intro rfc3339
    have hne : ¬ ("0xaa" = "") := by decide
    simp only [writeCSV, writeLoop, writeRecord, hne, if_false, csvRow_wraps, List.cons_append,
      List.nil_append]
  refine ⟨hrow, ?_⟩
  intro h
  have h1 := h (fun n => if n < 0 then "before 1970" else "1970 or later")
    [⟨"0xaa", "0x00", "0x01", "5", 2 ^ 64 - 1⟩]
  have h2 := hrow (fun n => if n < 0 then "before 1970" else "1970 or later")
  simp only [List.map_cons, List.map_nil, List.cons_append, List.nil_append] at h1
  rw [h2] at h1
  revert h1
  decide

/-- C10, amended. Writer row mapping: for every sequence of records the writer
receives before the stop signal, the rows written are the header row followed, in
arrival order, by one five-field row (hash, from, to, value, RFC-3339 rendering
of `int64(timestamp)`) per received record with a non-empty hash; a record with
an empty hash writes nothing; the header is the first row, the number
of data rows is the number of received records with a non-empty hash, and the
same rows are written while the writer has not been stopped yet. `int64` of a
timestamp below `2^63` is the timestamp, so when every received timestamp is
below `2^63` the Timestamp fields are the renderings of the timestamps. -/
theorem writer_rows (rfc3339 : Int → String) (received : List TransactionData)
    (rest : List Selected) :
    writeCSV rfc3339 (received.map Selected.data ++ Selected.done :: rest) =
      (["Transaction Hash", "From", "To", "Value", "Timestamp"] ::
        (received.filter (fun r => decide (r.Hash ≠ ""))).map
          (fun r => [r.Hash, r.From, r.To, r.Value, rfc3339 (wrap64 r.timestamp)]), true) ∧
    writeCSV rfc3339 (received.map Selected.data) =
      (["Transaction Hash", "From", "To", "Value", "Timestamp"] ::
        (received.filter (fun r => decide (r.Hash ≠ ""))).map
          (fun r => [r.Hash, r.From, r.To, r.Value, rfc3339 (wrap64 r.timestamp)]), false) ∧
    (writeCSV rfc3339 (received.map Selected.data ++ Selected.done :: rest)).1.head? =
      some ["Transaction Hash", "From", "To", "Value", "Timestamp"] ∧
    (writeCSV rfc3339 (received.map Selected.data ++ Selected.done :: rest)).1.length =
      1 + (received.filter (fun r => decide (r.Hash ≠ ""))).length ∧
    (∀ r : TransactionData, r.Hash = "" → ∀ rows, writeRecord rfc3339 rows r = rows) ∧
    (∀ r : TransactionData, (r.timestamp : Int) < 2 ^ 63 →
      wrap64 r.timestamp = r.timestamp) ∧
    ((∀ r ∈ received, (r.timestamp : Int) < 2 ^ 63) →
      writeCSV rfc3339 (received.map Selected.data ++ Selected.done :: rest) =
        (["Transaction Hash", "From", "To", "Value", "Timestamp"] ::
          (received.filter (fun r => decide (r.Hash ≠ ""))).map
            (fun r => [r.Hash, r.From, r.To, r.Value, rfc3339 (r.timestamp : Int)]), true)) := by
  have h1 : writeCSV rfc3339 (received.map Selected.data ++ Selected.done :: rest) =
      (["Transaction Hash", "From", "To", "Value", "Timestamp"] ::
        (received.filter (fun r => decide (r.Hash ≠ ""))).map
          (fun r => [r.Hash, r.From, r.To, r.Value, rfc3339 (wrap64 r.timestamp)]), true) := by
    unfold writeCSV
    rw [writeLoop_data]
    simp [writeLoop, header, csvRow]
  have hw : ∀ r : TransactionData, (r.timestamp : Int) < 2 ^ 63 →
      wrap64 r.timestamp = r.timestamp := by
    intro r hr
    exact wrap64_eq (by omega) hr
  refine ⟨h1, ?_, ?_, ?_, ?_, hw, ?_⟩
  · have h := writeLoop_data rfc3339 received [header] []
    rw [List.append_nil] at h
    unfold writeCSV
    rw [h]
    simp [writeLoop, header, csvRow]
  · rw [h1]
    rfl
  · rw [h1]
    simp
    omega
  · intro r hr rows
    simp [writeRecord, hr]
  · intro hall
    have hmap : (received.filter (fun r => decide (r.Hash ≠ ""))).map
          (fun r => [r.Hash, r.From, r.To, r.Value, rfc3339 (wrap64 r.timestamp)]) =
        (received.filter (fun r => decide (r.Hash ≠ ""))).map
          (fun r => [r.Hash, r.From, r.To, r.Value, rfc3339 (r.timestamp : Int)]) := by
      apply List.map_congr_left
      intro r hr
      rw [hw r (hall r (List.mem_of_mem_filter hr))]
    rw [h1, hmap]

/-- An instance of the amended C10 below `2^63`: two records arrive, the second
with an empty hash, then the stop signal. -/
theorem writer_rows_run :
    writeCSV (fun n => if n < 0 then "before 1970" else "1970 or later")
        [Selected.data ⟨"0xaa", "0x00", "0x01", "5", 9⟩, Selected.data ⟨"", "", "", "", 0⟩,
          Selected.done] =
      ([header, ["0xaa", "0x00", "0x01", "5", "1970 or later"]], true) := by
  decide

/-! ## Shutdown protocol -/

/-- C4, the code at the failing input. One scanner sends one record with a
non-empty hash and finishes; `main` passes `wg.Wait()`, closes the channel and
blocks on `done <- true`; the writer, in its `select` with the record still
buffered, takes the stop case. The schedule is a run of the pipeline and ends
with `main` and the writer returned, the record still in the channel and only
the header written. -/
theorem stop_taken_with_record_buffered (rfc3339 : Int → String) :
    step rfc3339 Action.handoff
        ⟨0, [⟨"0xaa", "0x00", "0x01", "5", 9⟩], true, MainPc.stop, WriterPc.select, [header]⟩ =
      some ⟨0, [⟨"0xaa", "0x00", "0x01", "5", 9⟩], true, MainPc.report, WriterPc.flush,
        [header]⟩ ∧
    run rfc3339 [Action.send ⟨"0xaa", "0x00", "0x01", "5", 9⟩, Action.scannerDone,
        Action.writerHeader, Action.mainWait, Action.mainClose, Action.handoff,
        Action.writerFlush, Action.writerCloseFile, Action.mainReport] (initial 1) =
      some ⟨0, [⟨"0xaa", "0x00", "0x01", "5", 9⟩], true, MainPc.exited, WriterPc.returned,
        [header]⟩ ∧
    sentBy [Action.send ⟨"0xaa", "0x00", "0x01", "5", 9⟩, Action.scannerDone,
        Action.writerHeader, Action.mainWait, Action.mainClose, Action.handoff,
        Action.writerFlush, Action.writerCloseFile, Action.mainReport] =
      [⟨"0xaa", "0x00", "0x01", "5", 9⟩] := by
  refine ⟨by rfl, by rfl, by rfl⟩

/-- C5, the code at the failing input. With no scanner left running, the schedule
header, `wg.Wait()`, `close`, stop handoff, report is a run of the pipeline: it
ends with `main` returned while the writer has taken the stop case but has run
neither its deferred flush nor its deferred close, and no step is left to it. -/
theorem main_exits_before_flush (rfc3339 : Int → String) :
    run rfc3339 [Action.writerHeader, Action.mainWait, Action.mainClose, Action.handoff,
        Action.mainReport] (initial 0) =
      some ⟨0, [], true, MainPc.exited, WriterPc.flush, [header]⟩ ∧
    step rfc3339 Action.writerFlush ⟨0, [], true, MainPc.exited, WriterPc.flush, [header]⟩ =
      none := by
  refine ⟨by rfl, by rfl⟩

/-! ## Shutdown protocol: what every schedule guarantees -/

theorem step_stopTaken (rfc3339 : Int → String) (a : Action) (s s' : Pipeline)
    (hs : StopTaken s) (h : step rfc3339 a s = some s') : StopTaken s' := by
  unfold StopTaken at *
  unfold step at h
  split at h
  · simp at h
  · cases a <;> simp only at h <;> (repeat' split at h) <;>
      first
      | (simp only [Option.some.injEq] at h; subst h; simp_all)
      | simp at h

theorem step_closeAfterScanners (rfc3339 : Int → String) (a : Action) (s s' : Pipeline)
    (hs : CloseAfterScanners s) (h : step rfc3339 a s = some s') : CloseAfterScanners s' := by
  unfold CloseAfterScanners at *
  unfold step at h
  split at h
  · simp at h
  · cases a <;> simp only at h <;> (repeat' split at h) <;>
      first
      | (simp only [Option.some.injEq] at h; subst h; simp_all)
      | simp at h

theorem run_invariant (rfc3339 : Int → String) (Inv : Pipeline → Prop)
    (hstep : ∀ a s s', Inv s → step rfc3339 a s = some s' → Inv s') :
    ∀ (acts : List Action) (s s' : Pipeline), Inv s → run rfc3339 acts s = some s' → Inv s' := by
  intro acts
  induction acts with
  | nil =>
    intro s s' hs h
    simp only [run, Option.some.injEq] at h
    subst h
    exact hs
  | cons a rest ih =>
    intro s s' hs h
    simp only [run] at h
    cases h1 : step rfc3339 a s with
    | none => simp [h1] at h
    | some s1 =>
      rw [h1] at h
      exact ih s1 s' (hstep a s s1 hs h1) h

theorem sentBy_cons (a : Action) (rest : List Action) :
    sentBy (a :: rest) = sentBy [a] ++ sentBy rest := by
  cases a <;> simp [sentBy]

theorem writeRecord_eq (rfc3339 : Int → String) (rows : List (List String))
    (r : TransactionData) : writeRecord rfc3339 rows r = rows ++ rowsOf rfc3339 [r] := by
  unfold writeRecord rowsOf
  by_cases hr : r.Hash = "" <;> simp [hr]

theorem rowsOf_append (rfc3339 : Int → String) (l l' : List TransactionData) :
    rowsOf rfc3339 (l ++ l') = rowsOf rfc3339 l ++ rowsOf rfc3339 l' := by
  simp [rowsOf]

/-- One step delivers at most the oldest buffered record. -/
theorem step_delivered (rfc3339 : Int → String) (a : Action) (s s' : Pipeline)
    (h : step rfc3339 a s = some s') : Delivered rfc3339 [a] s s' := by
  unfold step at h
  split at h
  · simp at h
  · cases a with
    | writerData =>
      simp only at h
      split at h
      · rename_i hsel
        split at h
        · rename_i r rest hchan
          simp only [Option.some.injEq] at h
          subst h
          refine ⟨[r], ?_, ?_, ?_, ?_⟩
          · simp [sentBy, hchan]
          · simp [headerBetween, hsel, writeRecord_eq]
          · simp
          · simp [hsel]
        · rename_i hchan
          split at h
          · simp only [Option.some.injEq] at h
            subst h
            refine ⟨[], ?_, ?_, ?_, ?_⟩
            · simp [sentBy]
            · simp [headerBetween, hsel, writeRecord_eq, rowsOf, zeroValue]
            · simp
            · simp
          · simp at h
      · simp at h
    | send r =>
      simp only at h
      split at h
      · simp only [Option.some.injEq] at h
        subst h
        exact ⟨[], by simp [sentBy], by simp [headerBetween, rowsOf], by simp, by simp⟩
      · simp at h
    | writerHeader =>
      simp only at h
      split at h
      · rename_i hst
        simp only [Option.some.injEq] at h
        subst h
        exact ⟨[], by simp [sentBy], by simp [headerBetween, rowsOf, hst], by simp, by simp⟩
      · simp at h
    | scannerDone | mainWait | mainClose | handoff | mainReport | writerFlush
      | writerCloseFile =>
      simp only at h
      split at h
      · rename_i hg
        simp only [Option.some.injEq] at h
        subst h
        refine ⟨[], by simp [sentBy], ?_, ?_, by simp⟩
        · simp [headerBetween, rowsOf]
          try simp [hg]
        · simp
          try simp [hg]
      · simp at h

/-- Deliveries compose along a schedule. -/
theorem Delivered.trans (rfc3339 : Int → String) (a : Action) (rest : List Action)
    (s s1 s' : Pipeline) (h1 : Delivered rfc3339 [a] s s1)
    (h2 : Delivered rfc3339 rest s1 s') : Delivered rfc3339 (a :: rest) s s' := by
  obtain ⟨r1, hc1, hr1, hm1, he1⟩ := h1
  obtain ⟨r2, hc2, hr2, hm2, he2⟩ := h2
  refine ⟨r1 ++ r2, ?_, ?_, fun h => hm2 (hm1 h), ?_⟩
  · rw [sentBy_cons, ← List.append_assoc, hc1, List.append_assoc, hc2, List.append_assoc]
  · rw [hr2, hr1, rowsOf_append]
    unfold headerBetween
    by_cases hs : s.writerPc = WriterPc.start
    · by_cases hs1 : s1.writerPc = WriterPc.start
      · rw [he1 hs1]
        by_cases hs' : s'.writerPc = WriterPc.start
        · simp [hs, hs1, hs', rowsOf]
        · simp [hs, hs1, hs', rowsOf]
      · have hs' := hm2 hs1
        simp [hs, hs1, hs']
    · have hs1 := hm1 hs
      simp [hs, hs1]
  · intro hs'
    have hs1 : s1.writerPc = WriterPc.start := by
      by_contra hne
      exact hm2 hne hs'
    rw [he1 hs1, he2 hs']
    rfl

theorem run_delivered (rfc3339 : Int → String) :
    ∀ (acts : List Action) (s s' : Pipeline), run rfc3339 acts s = some s' →
      Delivered rfc3339 acts s s' := by
  intro acts
  induction acts with
  | nil =>
    intro s s' h
    simp only [run, Option.some.injEq] at h
    subst h
    exact ⟨[], by simp [sentBy], by simp [headerBetween, rowsOf], fun h => h, fun _ => rfl⟩
  | cons a rest ih =>
    intro s s' h
    simp only [run] at h
    cases h1 : step rfc3339 a s with
    | none => simp [h1] at h
    | some s1 =>
      rw [h1] at h
      exact Delivered.trans rfc3339 a rest s s1 s' (step_delivered rfc3339 a s s1 h1)
        (ih s1 s' h)

/-- In every schedule of the pipeline, `main` is past `done <- true` (about to
report, or returned) only when the writer has taken the stop case of its
`select`: the unbuffered send of line 133 completes only in a rendezvous with
the receive of line 88. -/
theorem report_after_stop_taken (rfc3339 : Int → String) (numWorkers : Nat)
    (acts : List Action) (s : Pipeline)
    (h : run rfc3339 acts (initial numWorkers) = some s)
    (hmain : s.mainPc = MainPc.report ∨ s.mainPc = MainPc.exited) :
    s.writerPc = WriterPc.flush ∨ s.writerPc = WriterPc.closeFile ∨
      s.writerPc = WriterPc.returned :=
  run_invariant rfc3339 StopTaken (step_stopTaken rfc3339) acts _ s
    (by simp [StopTaken, initial]) h hmain

/-- An instance of `report_after_stop_taken`: the schedule in which `main` returns
right after the handoff. -/
theorem report_after_stop_taken_witness :
    run (fun _ => "t") [Action.writerHeader, Action.mainWait, Action.mainClose,
        Action.handoff, Action.mainReport] (initial 0) =
      some ⟨0, [], true, MainPc.exited, WriterPc.flush, [header]⟩ ∧
    (WriterPc.flush = WriterPc.flush ∨ WriterPc.flush = WriterPc.closeFile ∨
      WriterPc.flush = WriterPc.returned) :=
  ⟨rfl, report_after_stop_taken (fun _ => "t") 0
    [Action.writerHeader, Action.mainWait, Action.mainClose, Action.handoff, Action.mainReport]
    ⟨0, [], true, MainPc.exited, WriterPc.flush, [header]⟩ rfl (Or.inr rfl)⟩

/-- In every schedule of the pipeline the channel is closed only when no scanner
is running: `close(txDataChan)` comes after `wg.Wait()`, so no scanner sends on a
closed channel. -/
theorem closed_after_scanners (rfc3339 : Int → String) (numWorkers : Nat)
    (acts : List Action) (s : Pipeline)
    (h : run rfc3339 acts (initial numWorkers) = some s) (hclosed : s.closed = true) :
    s.running = 0 := by
  have hinv := run_invariant rfc3339 CloseAfterScanners (step_closeAfterScanners rfc3339)
    acts _ s (by simp [CloseAfterScanners, initial]) h
  obtain ⟨h1, h2, _⟩ := hinv
  by_contra hrun
  have hw := h2 (h1 (by omega))
  rw [hclosed] at hw
  exact absurd hw (by decide)

/-- An instance of `closed_after_scanners`: one scanner sends a record and finishes,
then `main` closes the channel. -/
theorem closed_after_scanners_witness :
    run (fun _ => "t") [Action.send ⟨"0xaa", "0x00", "0x01", "5", 9⟩, Action.scannerDone,
        Action.mainWait, Action.mainClose] (initial 1) =
      some ⟨0, [⟨"0xaa", "0x00", "0x01", "5", 9⟩], true, MainPc.stop, WriterPc.start, []⟩ ∧
    (⟨0, [⟨"0xaa", "0x00", "0x01", "5", 9⟩], true, MainPc.stop, WriterPc.start, []⟩ :
      Pipeline).running = 0 :=
  ⟨rfl, closed_after_scanners (fun _ => "t") 1
    [Action.send ⟨"0xaa", "0x00", "0x01", "5", 9⟩, Action.scannerDone, Action.mainWait,
      Action.mainClose]
    ⟨0, [⟨"0xaa", "0x00", "0x01", "5", 9⟩], true, MainPc.stop, WriterPc.start, []⟩ rfl rfl⟩

/-- In every schedule of the pipeline the records sent by the scanners are the
records the writer has received followed by those still buffered, and the rows
written are nothing before the header and afterwards the header followed by the
rows of the received records with a non-empty hash, in the order they were
sent: no row is invented, repeated or reordered. -/
theorem rows_follow_sends (rfc3339 : Int → String) (numWorkers : Nat) (acts : List Action)
    (s : Pipeline) (h : run rfc3339 acts (initial numWorkers) = some s) :
    ∃ recvd : List TransactionData, sentBy acts = recvd ++ s.chan ∧
      s.rows = (if s.writerPc = WriterPc.start then []
        else header :: (recvd.filter (fun r => decide (r.Hash ≠ ""))).map (csvRow rfc3339)) := by
  obtain ⟨recvd, hc, hr, _, he⟩ := run_delivered rfc3339 acts _ s h
  refine ⟨recvd, by simpa [initial] using hc, ?_⟩
  by_cases hs : s.writerPc = WriterPc.start
  · rw [hr, he hs]
    simp [initial, headerBetween, hs, rowsOf]
  · rw [hr]
    simp [initial, headerBetween, hs, rowsOf]

/-- An instance of `rows_follow_sends`: one scanner sends two records and the writer
receives the first. -/
theorem rows_follow_sends_witness :
    ∃ recvd : List TransactionData,
      sentBy [Action.send ⟨"0xaa", "0x00", "0x01", "5", 9⟩,
          Action.send ⟨"0xbb", "0x01", "", "0", 9⟩, Action.writerHeader, Action.writerData] =
        recvd ++ [⟨"0xbb", "0x01", "", "0", 9⟩] ∧
      [header, ["0xaa", "0x00", "0x01", "5", "t"]] =
        (if WriterPc.select = WriterPc.start then []
          else header :: (recvd.filter (fun r => decide (r.Hash ≠ ""))).map
            (csvRow (fun _ => "t"))) :=
  rows_follow_sends (fun _ => "t") 1
    [Action.send ⟨"0xaa", "0x00", "0x01", "5", 9⟩, Action.send ⟨"0xbb", "0x01", "", "0", 9⟩,
      Action.writerHeader, Action.writerData]
    ⟨1, [⟨"0xbb", "0x01", "", "0", 9⟩], false, MainPc.wait, WriterPc.select,
      [header, ["0xaa", "0x00", "0x01", "5", "t"]]⟩ rfl

end TxFetcher
